import Mathlib

/-!
Shallow embedding of the fitpy likelihood module (fitpy/likelihood.py),
together with theorems checking the module's documented behaviour.

Conventions used throughout:
* a numpy float array of length n is a function Fin n → ℝ, a numpy
  matrix is a Mathlib matrix over ℝ;
* np.log, np.sqrt, np.cos, np.sin, np.pi are Real.log, Real.sqrt,
  Real.cos, Real.sin, Real.pi;
* a numpy masked-array reduction is an Option ℝ: none models the masked
  constant that a fully-masked (or empty) sum returns, and arithmetic
  with a masked operand stays masked;
* scipy.optimize.minimize is an external collaborator, so the value it
  returns is a parameter (the structure OptimizeResult) rather than a
  computation, and LikelihoodFit.call, the embedding of
  LikelihoodFit.__call__, consumes that value;
* raising an exception is modelled with Except: call either returns the
  status code (Except.ok) or raises (Except.error, standing for the
  FloatingPointError branch of __call__).
-/

namespace Fitpy

noncomputable section

variable {n p : ℕ}

/-- Embedding of np.linspace(a, b, num) with the default endpoint=True:
num evenly spaced samples from a to b inclusive; a single sample is a. -/
def linspace (a b : ℝ) (num : ℕ) : Fin num → ℝ :=
  fun j => if num = 1 then a else a + (b - a) * (j : ℝ) / ((num : ℝ) - 1)

/-- Embedding of np.linalg.cholesky restricted to the 2×2 matrices the
module passes it (an external routine): the closed form of the
lower-triangular Cholesky factor, reading the lower triangle of the
input as LAPACK does. -/
def cholesky (cova : Matrix (Fin 2) (Fin 2) ℝ) : Matrix (Fin 2) (Fin 2) ℝ :=
  let l00 := Real.sqrt (cova 0 0)
  let l10 := cova 1 0 / l00
  let l11 := Real.sqrt (cova 1 1 - l10 ^ 2)
  !![l00, 0; l10, l11]

/-- Embedding of the module-level get_confidence_ellipse:
cholesky_l = np.linalg.cholesky(cova); t = np.linspace(0, 2π, npoints);
circle = column_stack([cos t, sin t]); the returned (transposed) array
has entry (a, j) equal to nsigma * (circle @ cholesky_l.T)[j, a] +
center[a]. -/
def get_confidence_ellipse (center : Fin 2 → ℝ)
    (cova : Matrix (Fin 2) (Fin 2) ℝ) (nsigma : ℝ) (npoints : ℕ) :
    Fin 2 → Fin npoints → ℝ :=
  let cholesky_l := cholesky cova
  let t : Fin npoints → ℝ := linspace 0 (2 * Real.pi) npoints
  let circle : Fin npoints → Fin 2 → ℝ :=
    fun j => ![Real.cos (t j), Real.sin (t j)]
  fun a j => nsigma * (∑ b, circle j b * cholesky_l a b) + center a

/-- Result object of scipy.optimize.minimize (external collaborator):
exactly the fields that likelihood.py reads. -/
structure OptimizeResult (p : ℕ) where
  x : Fin p → ℝ
  fun_val : ℝ
  success : Bool
  status : ℤ
  hess_inv : Matrix (Fin p) (Fin p) ℝ

/-- Embedding of the abstract class LikelihoodFit: the data (x, y), the
model, and the stored fit result (the attribute set by __call__).  The
model is vectorized: it takes the points where it is evaluated and the
parameter vector and returns one value per point. -/
structure LikelihoodFit (n p : ℕ) where
  x : Fin n → ℝ
  y : Fin n → ℝ
  model : (m : ℕ) → (Fin m → ℝ) → (Fin p → ℝ) → Fin m → ℝ
  fit_result : OptimizeResult p

/-- Embedding of LikelihoodFit.__call__.  The assignment
self.fit_result = minimize(...) happens before the success check, so the
new state stores res in either branch; on failure the function raises
(FloatingPointError), on success it returns the status code. -/
def LikelihoodFit.call (f : LikelihoodFit n p) (res : OptimizeResult p) :
    LikelihoodFit n p × Except Unit ℤ :=
  let f1 : LikelihoodFit n p := { f with fit_result := res }
  if res.success then (f1, Except.ok res.status)
  else (f1, Except.error ())

/-- Embedding of LikelihoodFit.get_estimators. -/
def LikelihoodFit.get_estimators (f : LikelihoodFit n p) : Fin p → ℝ :=
  f.fit_result.x

/-- Embedding of LikelihoodFit.get_covariance_matrix:
covariance = 2 * self.fit_result.hess_inv. -/
def LikelihoodFit.get_covariance_matrix (f : LikelihoodFit n p) :
    Matrix (Fin p) (Fin p) ℝ :=
  (2 : ℝ) • f.fit_result.hess_inv

/-- Embedding of LikelihoodFit.get_errors:
np.sqrt of the diagonal of the covariance matrix. -/
def LikelihoodFit.get_errors (f : LikelihoodFit n p) : Fin p → ℝ :=
  fun i => Real.sqrt (f.get_covariance_matrix i i)

/-- Embedding of LikelihoodFit.vcost_function.  The base class is
abstract, so the subclass cost function reached through
self.cost_function is a parameter.  Each cell copies the estimators,
overrides parx_index then pary_index, and evaluates the cost; the rows
follow pary and the columns follow parx, matching the reshape to
(len(pary), len(parx)).  State passing is explicit: the first component
is the state of the object after the call. -/
def LikelihoodFit.vcost_function {α : Type} (f : LikelihoodFit n p)
    (cost : (Fin p → ℝ) → α) (parx_index pary_index : Fin p)
    (parx pary : List ℝ) : LikelihoodFit n p × List (List α) :=
  (f, pary.map fun yv => parx.map fun xv =>
    cost (Function.update (Function.update f.get_estimators parx_index xv)
      pary_index yv))

/-- Embedding of LikelihoodFit.get_gradient: central finite difference of
the model with respect to each parameter, evaluated at the estimators,
with per-parameter step = error * 0.01.  Indexed [parameter][point]. -/
def LikelihoodFit.get_gradient (f : LikelihoodFit n p) {m : ℕ}
    (x : Fin m → ℝ) : Fin p → Fin m → ℝ :=
  fun i =>
    let step1 : ℝ := f.get_errors i * 0.01
    let delta_par1 : Fin p → ℝ := fun j => if j = i then step1 else 0
    let par_down : Fin p → ℝ := fun j => f.get_estimators j - delta_par1 j
    let par_up : Fin p → ℝ := fun j => f.get_estimators j + delta_par1 j
    fun k => (f.model m x par_up k - f.model m x par_down k) / (2 * step1)

/-- Embedding of LikelihoodFit.get_yfit_error:
var_yfit = np.einsum with subscripts ik,ij,jk->k over (gradient,
covariance, gradient), then sigma_yfit = np.sqrt(var_yfit). -/
def LikelihoodFit.get_yfit_error (f : LikelihoodFit n p) {m : ℕ}
    (x : Fin m → ℝ) : Fin m → ℝ :=
  let gradient := f.get_gradient x
  let covariance := f.get_covariance_matrix
  fun k => Real.sqrt (∑ i, ∑ j, gradient i k * covariance i j * gradient j k)

/-- Embedding of the subclass LeastSquares: adds the ysigma array. -/
structure LeastSquares (n p : ℕ) extends LikelihoodFit n p where
  ysigma : Fin n → ℝ

/-- Embedding of LeastSquares.cost_function:
residuals = (y - mu) / ysigma, cost = np.sum(residuals**2). -/
def LeastSquares.cost_function (ls : LeastSquares n p) (par : Fin p → ℝ) : ℝ :=
  let mu := ls.model n ls.x par
  let residuals : Fin n → ℝ := fun i => (ls.y i - mu i) / ls.ysigma i
  ∑ i, residuals i ^ 2

/-- Sum of a numpy masked array over the set s of unmasked indices.
When every element is masked (s empty, also when the array itself is
empty) numpy returns the masked constant, modelled by none. -/
def ma_sum (s : Finset (Fin n)) (f : Fin n → ℝ) : Option ℝ :=
  if s = ∅ then none else some (∑ i ∈ s, f i)

/-- Addition on masked scalars: the masked constant absorbs. -/
def ma_add : Option ℝ → Option ℝ → Option ℝ
  | some a, some b => some (a + b)
  | _, _ => none

/-- Embedding of the subclass Poisson (no extra data). -/
structure Poisson (n p : ℕ) extends LikelihoodFit n p

/-- Embedding of Poisson.cost_function.  zero_mask = (y == 0); cost1 is
the masked-array sum of 2*(mu - y) - 2*y*np.log(mu/y) over the points
with y != 0, cost2 the masked-array sum of 2*mu over the points with
y == 0, and the result is cost1 + cost2 (masked constants absorb). -/
def Poisson.cost_function (pf : Poisson n p) (par : Fin p → ℝ) : Option ℝ :=
  let mu := pf.model n pf.x par
  let cost1 := ma_sum (Finset.univ.filter fun i => pf.y i ≠ 0)
    (fun i => 2 * (mu i - pf.y i) - 2 * pf.y i * Real.log (mu i / pf.y i))
  let cost2 := ma_sum (Finset.univ.filter fun i => pf.y i = 0)
    (fun i => 2 * mu i)
  ma_add cost1 cost2

/-- Concrete Poisson instance with a single data point and y = [1]:
no zero count at all, so the zero-count masked sum is fully masked. -/
def pfC1 : Poisson 1 1 :=
  { x := ![0], y := ![1], model := fun _ _ _ _ => 1,
    fit_result :=
      { x := ![1], fun_val := 0, success := true, status := 0,
        hess_inv := !![1] } }

/-- Concrete Poisson instance with one zero count and one nonzero count
and a model constantly 1. -/
def pfMix : Poisson 2 1 :=
  { x := ![0, 0], y := ![0, 1], model := fun _ _ _ _ => 1,
    fit_result :=
      { x := ![1], fun_val := 0, success := true, status := 0,
        hess_inv := !![1] } }

/-- Optimizer output of a previous successful fit (estimator 1). -/
def r0C4 : OptimizeResult 1 :=
  { x := ![1], fun_val := 0, success := true, status := 0, hess_inv := !![1] }

/-- Optimizer output of a failed minimization (estimator 7). -/
def rBadC4 : OptimizeResult 1 :=
  { x := ![7], fun_val := 5, success := false, status := 2, hess_inv := !![1] }

/-- Session holding the result of the previous successful fit. -/
def fC4 : LikelihoodFit 1 1 :=
  { x := ![0], y := ![0], model := fun _ _ par _ => par 0, fit_result := r0C4 }

/-- Concrete LeastSquares instance with ysigma = [-1]. -/
def lsC8 : LeastSquares 1 1 :=
  { x := ![0], y := ![2], model := fun _ _ _ _ => 0, ysigma := ![-1],
    fit_result :=
      { x := ![1], fun_val := 0, success := true, status := 0,
        hess_inv := !![1] } }

/-- Two-parameter session with estimators (5, 6), for the cost-surface
scan statements. -/
def fC9 : LikelihoodFit 1 2 :=
  { x := ![0], y := ![0], model := fun _ _ par _ => par 0,
    fit_result :=
      { x := ![5, 6], fun_val := 0, success := true, status := 0,
        hess_inv := !![1, 0; 0, 1] } }

/-- Sample cost function reading the first parameter. -/
def costC9 : (Fin 2 → ℝ) → ℝ := fun par => par 0

/-- Single-parameter session for the affine model par[0]*x, with
hess_inv = [[1/2]] so that the parameter error is exactly 1. -/
def fC7 : LikelihoodFit 1 1 :=
  { x := ![0], y := ![0], model := fun _ xpts par k => par 0 * xpts k,
    fit_result :=
      { x := ![1], fun_val := 0, success := true, status := 0,
        hess_inv := !![(1 : ℝ) / 2] } }

/-- Center used in the confidence-ellipse witness. -/
def centerW : Fin 2 → ℝ := ![0, 0]

/-- Covariance used in the confidence-ellipse witness. -/
def covaW : Matrix (Fin 2) (Fin 2) ℝ := !![1, 0; 0, 1]

/-- C2: LeastSquares.cost_function(par) is the sum over the data points of
((y_i - model(x, par)_i) / ysigma_i)^2. -/
theorem leastSquares_cost_sum_of_squares (ls : LeastSquares n p)
    (par : Fin p → ℝ) :
    ls.cost_function par =
      ∑ i, ((ls.y i - ls.model n ls.x par i) / ls.ysigma i) ^ 2 := by
  rfl

/-- C3: get_covariance_matrix returns exactly twice the stored
inverse-curvature matrix, entry by entry, for every stored fit result. -/
theorem covariance_matrix_doubles_inverse_curvature
    (f : LikelihoodFit n p) (i j : Fin p) :
    f.get_covariance_matrix i j = 2 * f.fit_result.hess_inv i j := by
  simp [LikelihoodFit.get_covariance_matrix, Matrix.smul_apply]

/-- C1 (amended): when the data contain at least one zero count and at
least one nonzero count (and the model is positive where counts are),
Poisson.cost_function(par) with mu = model(x, par) is the sum over the
data points of the piecewise term: 2*(mu_i - y_i) - 2*y_i*ln(mu_i/y_i)
where y_i differs from 0, and 2*mu_i where y_i = 0. -/
theorem poisson_cost_piecewise (pf : Poisson n p) (par : Fin p → ℝ)
    (hz : ∃ i, pf.y i = 0) (hnz : ∃ i, pf.y i ≠ 0)
    (hpos : ∀ i, 0 < pf.y i → 0 < pf.model n pf.x par i) :
    pf.cost_function par = some (∑ i,
      if pf.y i = 0 then 2 * pf.model n pf.x par i
      else 2 * (pf.model n pf.x par i - pf.y i)
        - 2 * pf.y i * Real.log (pf.model n pf.x par i / pf.y i)) := by
  obtain ⟨i0, hi0⟩ := hz
  obtain ⟨i1, hi1⟩ := hnz
  have h1 : (Finset.univ.filter fun i => pf.y i ≠ 0) ≠ ∅ :=
    Finset.nonempty_iff_ne_empty.mp
      ⟨i1, Finset.mem_filter.mpr ⟨Finset.mem_univ i1, hi1⟩⟩
  have h2 : (Finset.univ.filter fun i => pf.y i = 0) ≠ ∅ :=
    Finset.nonempty_iff_ne_empty.mp
      ⟨i0, Finset.mem_filter.mpr ⟨Finset.mem_univ i0, hi0⟩⟩
  simp only [Poisson.cost_function, ma_sum, ma_add, h1, h2, if_neg,
    ne_eq, not_false_eq_true]
  congr 1
  rw [Finset.sum_filter, Finset.sum_filter, ← Finset.sum_add_distrib]
  apply Finset.sum_congr rfl
  intro i _
  by_cases h : pf.y i = 0 <;> simp [h]

/-- Witness for poisson_cost_piecewise at the concrete instance pfMix. -/
theorem poisson_cost_piecewise_witness :
    (∃ i, pfMix.y i = 0) ∧ (∃ i, pfMix.y i ≠ 0) ∧
    (∀ i, 0 < pfMix.y i → 0 < pfMix.model 2 pfMix.x ![1] i) ∧
    pfMix.cost_function ![1] = some (∑ i,
      if pfMix.y i = 0 then 2 * pfMix.model 2 pfMix.x ![1] i
      else 2 * (pfMix.model 2 pfMix.x ![1] i - pfMix.y i)
        - 2 * pfMix.y i * Real.log (pfMix.model 2 pfMix.x ![1] i / pfMix.y i)) := by
  have hz : ∃ i, pfMix.y i = 0 := ⟨0, by norm_num [pfMix]⟩
  have hnz : ∃ i, pfMix.y i ≠ 0 := ⟨1, by norm_num [pfMix]⟩
  have hpos : ∀ i, 0 < pfMix.y i → 0 < pfMix.model 2 pfMix.x ![1] i := by
    intro i _
    norm_num [pfMix]
  exact ⟨hz, hnz, hpos, poisson_cost_piecewise pfMix ![1] hz hnz hpos⟩

/-- Helper: the masked constant absorbs on the right. -/
theorem ma_add_none_right (o : Option ℝ) : ma_add o none = none := by
  cases o <;> rfl

/-- C1 (counterexample): on data with no zero count (y = [1], mu = 1) the
masked-array sum over the y = 0 subset is the masked constant, so
Poisson.cost_function returns the masked constant — not the numeric
piecewise sum (whose value here would be 0). -/
theorem poisson_cost_all_nonzero_masked :
    pfC1.cost_function ![1] = none ∧
    pfC1.cost_function ![1] ≠ some (∑ i,
      if pfC1.y i = 0 then 2 * pfC1.model 1 pfC1.x ![1] i
      else 2 * (pfC1.model 1 pfC1.x ![1] i - pfC1.y i)
        - 2 * pfC1.y i * Real.log (pfC1.model 1 pfC1.x ![1] i / pfC1.y i)) := by
  have h2 : (Finset.univ.filter fun i : Fin 1 => pfC1.y i = 0) = ∅ := by
    apply Finset.filter_eq_empty_iff.mpr
    intro i _
    fin_cases i
    norm_num [pfC1]
  have hnone : pfC1.cost_function ![1] = none := by
    simp only [Poisson.cost_function, h2, ma_sum, if_pos rfl]
    exact ma_add_none_right _
  exact ⟨hnone, by simp [hnone]⟩

/-- C4 (counterexample): a failed minimization raises, but the stored fit
state is overwritten first: the session is no longer equal to its prior
state and get_estimators now reports the failed optimizer's vector. -/
theorem call_failure_overwrites_state :
    (fC4.call rBadC4).2 = Except.error () ∧
    (fC4.call rBadC4).1 ≠ fC4 ∧
    (fC4.call rBadC4).1.get_estimators 0 = 7 ∧
    fC4.get_estimators 0 = 1 := by
  refine ⟨?_, ?_, ?_, ?_⟩
  · simp [LikelihoodFit.call, rBadC4]
  · intro h
    have h7 := congrArg (fun g : LikelihoodFit 1 1 => g.fit_result.x 0) h
    simp [LikelihoodFit.call, rBadC4, fC4, r0C4] at h7
  · simp [LikelihoodFit.call, LikelihoodFit.get_estimators, rBadC4]
  · simp [fC4, r0C4, LikelihoodFit.get_estimators]

/-- C4 (amended): when the minimizer reports failure the call raises
(ConvergenceError, embedded as Except.error) and returns no status, but
the failed optimizer result has already been stored in the session. -/
theorem call_failure_raises_and_stores (f : LikelihoodFit n p)
    (res : OptimizeResult p) (h : res.success = false) :
    (f.call res).2 = Except.error () ∧ (f.call res).1.fit_result = res := by
  simp [LikelihoodFit.call, h]

/-- Witness for call_failure_raises_and_stores at a concrete input. -/
theorem call_failure_raises_and_stores_witness :
    rBadC4.success = false ∧
    ((fC4.call rBadC4).2 = Except.error () ∧
      (fC4.call rBadC4).1.fit_result = rBadC4) :=
  ⟨rfl, call_failure_raises_and_stores fC4 rBadC4 rfl⟩

/-- C5: get_yfit_error returns, per x-point k, the square root of the full
quadratic form gradient(:,k)ᵀ · covariance · gradient(:,k), the double
sum over all parameter pairs including the cross terms. -/
theorem yfit_error_full_quadratic_form (f : LikelihoodFit n p) {m : ℕ}
    (x : Fin m → ℝ) (k : Fin m) :
    f.get_yfit_error x k =
      Real.sqrt (Matrix.dotProduct (fun i => f.get_gradient x i k)
        (f.get_covariance_matrix.mulVec fun j => f.get_gradient x j k)) := by
  unfold LikelihoodFit.get_yfit_error
  congr 1
  simp only [Matrix.dotProduct, Matrix.mulVec, Finset.mul_sum]
  apply Finset.sum_congr rfl
  intro i _
  apply Finset.sum_congr rfl
  intro j _
  ring

/-- C8 (amended): LeastSquares.cost_function applies no domain check to
ysigma: it is a total function and the sign of ysigma is irrelevant,
since only the square of each sigma enters the cost. -/
theorem leastSquares_sigma_sign_irrelevant (ls : LeastSquares n p)
    (par : Fin p → ℝ) :
    LeastSquares.cost_function { ls with ysigma := fun i => |ls.ysigma i| } par
      = ls.cost_function par := by
  unfold LeastSquares.cost_function
  apply Finset.sum_congr rfl
  intro i _
  simp only [div_pow, sq_abs]

/-- C8 (counterexample): with a negative sigma the cost function raises
nothing: it returns the plain value 4 = ((2 - 0)/(-1))². -/
theorem leastSquares_negative_sigma_returns_value :
    lsC8.ysigma 0 ≤ 0 ∧ lsC8.cost_function ![1] = 4 := by
  constructor
  · norm_num [lsC8]
  · simp only [LeastSquares.cost_function, lsC8, Fin.sum_univ_one]
    norm_num

/-- Helper: the grid cell (r, c) of vcost_function is the cost at the
estimators with parx_index overridden by parx[c] and then pary_index
overridden by pary[r]. -/
theorem vcost_cell {α : Type} (f : LikelihoodFit n p)
    (cost : (Fin p → ℝ) → α) (parx_index pary_index : Fin p)
    (parx pary : List ℝ) (r c : ℕ)
    (hr : r < pary.length) (hc : c < parx.length)
    (dRow : List α) (dCell : α) :
    ((f.vcost_function cost parx_index pary_index parx pary).2.getD r
        dRow).getD c dCell
      = cost (Function.update
          (Function.update f.get_estimators parx_index (parx.getD c 0))
          pary_index (pary.getD r 0)) := by
  simp only [LikelihoodFit.vcost_function, List.getD_eq_getElem?_getD,
    List.getElem?_map, List.getElem?_eq_getElem hr,
    List.getElem?_eq_getElem hc, Option.map_some', Option.getD_some]

/-- C9: vcost_function is read-only: the session state and the estimator
vector after the call equal those before it, and each grid cell is the
cost on a fresh copy of the estimators with only the two chosen indices
overridden. -/
theorem vcost_function_readonly {α : Type} (f : LikelihoodFit n p)
    (cost : (Fin p → ℝ) → α) (parx_index pary_index : Fin p)
    (parx pary : List ℝ) :
    (f.vcost_function cost parx_index pary_index parx pary).1 = f ∧
    (f.vcost_function cost parx_index pary_index parx pary).1.get_estimators
      = f.get_estimators ∧
    ∀ (r c : ℕ), r < pary.length → c < parx.length →
      ∀ (dRow : List α) (dCell : α),
      ((f.vcost_function cost parx_index pary_index parx pary).2.getD r
          dRow).getD c dCell
        = cost (Function.update
            (Function.update f.get_estimators parx_index (parx.getD c 0))
            pary_index (pary.getD r 0)) := by
  refine ⟨rfl, rfl, ?_⟩
  intro r c hr hc dRow dCell
  exact vcost_cell f cost parx_index pary_index parx pary r c hr hc dRow dCell

/-- Witness for vcost_function_readonly at a concrete input. -/
theorem vcost_function_readonly_witness :
    (0 : ℕ) < [(20 : ℝ)].length ∧ (0 : ℕ) < [(10 : ℝ)].length ∧
    (fC9.vcost_function costC9 0 1 [10] [20]).1 = fC9 ∧
    (fC9.vcost_function costC9 0 1 [10] [20]).1.get_estimators
      = fC9.get_estimators ∧
    ((fC9.vcost_function costC9 0 1 [10] [20]).2.getD 0 []).getD 0 0
      = costC9 (Function.update
          (Function.update fC9.get_estimators 0 ([(10 : ℝ)].getD 0 0))
          1 ([(20 : ℝ)].getD 0 0)) := by
  have h := vcost_function_readonly fC9 costC9 0 1 [10] [20]
  exact ⟨by norm_num, by norm_num, h.1, h.2.1,
    h.2.2 0 0 (by norm_num) (by norm_num) [] 0⟩

/-- C10: when parx_index equals pary_index, the pary candidate silently
wins: the grid cell depends only on pary[r], with the shared component
set to pary[r] and the parx candidate having no effect. -/
theorem vcost_function_same_index_pary_wins {α : Type} (f : LikelihoodFit n p)
    (cost : (Fin p → ℝ) → α) (pidx : Fin p) (parx pary : List ℝ) (r c : ℕ)
    (hr : r < pary.length) (hc : c < parx.length)
    (dRow : List α) (dCell : α) :
    ((f.vcost_function cost pidx pidx parx pary).2.getD r dRow).getD c dCell
      = cost (Function.update f.get_estimators pidx (pary.getD r 0)) := by
  rw [vcost_cell f cost pidx pidx parx pary r c hr hc dRow dCell,
    Function.update_idem]

/-- Witness for vcost_function_same_index_pary_wins at a concrete input. -/
theorem vcost_function_same_index_pary_wins_witness :
    (0 : ℕ) < [(20 : ℝ)].length ∧ (0 : ℕ) < [(10 : ℝ)].length ∧
    ((fC9.vcost_function costC9 0 0 [10] [20]).2.getD 0 []).getD 0 0
      = costC9 (Function.update fC9.get_estimators 0 ([(20 : ℝ)].getD 0 0)) :=
  ⟨by norm_num, by norm_num,
    vcost_function_same_index_pary_wins fC9 costC9 0 [10] [20] 0 0
      (by norm_num) (by norm_num) [] 0⟩

/-- C6: for a symmetric positive-definite 2×2 covariance the factor L is
lower triangular with L·Lᵀ = cova, and (with npoints ≥ 2) point j of the
returned contour is nsigma · L · (cos t_j, sin t_j) + center where the
angles t_j = 2π·j/(npoints-1) sample [0, 2π] evenly, endpoints
included. -/
theorem confidence_ellipse_spec (center : Fin 2 → ℝ)
    (cova : Matrix (Fin 2) (Fin 2) ℝ) (nsigma : ℝ) (npoints : ℕ)
    (hsym : cova 0 1 = cova 1 0) (h00 : 0 < cova 0 0)
    (hdet : 0 < cova 0 0 * cova 1 1 - cova 1 0 * cova 0 1)
    (hn : 2 ≤ npoints) :
    (cholesky cova 0 1 = 0 ∧ cholesky cova * (cholesky cova).transpose = cova) ∧
    ∀ j : Fin npoints, ∀ a : Fin 2,
      get_confidence_ellipse center cova nsigma npoints a j
        = nsigma * (cholesky cova).mulVec
            ![Real.cos (2 * Real.pi * (j : ℝ) / ((npoints : ℝ) - 1)),
              Real.sin (2 * Real.pi * (j : ℝ) / ((npoints : ℝ) - 1))] a
          + center a := by
  rw [hsym] at hdet
  have hsqrt_pos : 0 < Real.sqrt (cova 0 0) := Real.sqrt_pos.mpr h00
  have hne : Real.sqrt (cova 0 0) ≠ 0 := ne_of_gt hsqrt_pos
  have hl10sq : (cova 1 0 / Real.sqrt (cova 0 0)) ^ 2
      = cova 1 0 ^ 2 / cova 0 0 := by
    rw [div_pow, Real.sq_sqrt h00.le]
  have hrem_pos : 0 < cova 1 1 - (cova 1 0 / Real.sqrt (cova 0 0)) ^ 2 := by
    rw [hl10sq, sub_pos, div_lt_iff₀ h00]
    nlinarith [hdet]
  refine ⟨⟨?_, ?_⟩, ?_⟩
  · simp [cholesky]
  · ext i j
    fin_cases i <;> fin_cases j <;>
      simp only [cholesky, Matrix.mul_apply, Fin.sum_univ_two,
        Matrix.transpose_apply, Matrix.cons_val', Matrix.cons_val_zero,
        Matrix.cons_val_one, Matrix.head_cons, Matrix.head_fin_const,
        Matrix.of_apply, Matrix.empty_val', Matrix.cons_val_fin_one,
        Fin.isValue, Fin.zero_eta, Fin.mk_one]
    · rw [mul_zero, add_zero, Real.mul_self_sqrt h00.le]
    · rw [zero_mul, add_zero, mul_comm, div_mul_cancel₀ _ hne, hsym]
    · rw [mul_zero, add_zero, div_mul_cancel₀ _ hne]
    · rw [Real.mul_self_sqrt hrem_pos.le]
      ring
  · intro j a
    have hnum1 : npoints ≠ 1 := by omega
    have harg : (0 : ℝ) + (2 * Real.pi - 0) * (j : ℝ) / ((npoints : ℝ) - 1)
        = 2 * Real.pi * (j : ℝ) / ((npoints : ℝ) - 1) := by ring
    simp only [get_confidence_ellipse, linspace, if_neg hnum1,
      Matrix.mulVec, Matrix.dotProduct, harg]
    congr 1
    rw [Fin.sum_univ_two, Fin.sum_univ_two]
    simp only [Matrix.cons_val_zero, Matrix.cons_val_one, Matrix.head_cons]
    ring

/-- Witness for confidence_ellipse_spec at the identity covariance,
center (0, 0), nsigma = 1 and npoints = 2. -/
theorem confidence_ellipse_spec_witness :
    covaW 0 1 = covaW 1 0 ∧ 0 < covaW 0 0 ∧
    0 < covaW 0 0 * covaW 1 1 - covaW 1 0 * covaW 0 1 ∧ 2 ≤ 2 ∧
    ((cholesky covaW 0 1 = 0 ∧ cholesky covaW * (cholesky covaW).transpose = covaW) ∧
      ∀ j : Fin 2, ∀ a : Fin 2,
        get_confidence_ellipse centerW covaW 1 2 a j
          = 1 * (cholesky covaW).mulVec
              ![Real.cos (2 * Real.pi * (j : ℝ) / ((2 : ℕ) - 1 : ℝ)),
                Real.sin (2 * Real.pi * (j : ℝ) / ((2 : ℕ) - 1 : ℝ))] a
            + centerW a) := by
  have hsym : covaW 0 1 = covaW 1 0 := by norm_num [covaW]
  have h00 : 0 < covaW 0 0 := by norm_num [covaW]
  have hdet : 0 < covaW 0 0 * covaW 1 1 - covaW 1 0 * covaW 0 1 := by
    norm_num [covaW]
  exact ⟨hsym, h00, hdet, by norm_num,
    confidence_ellipse_spec centerW covaW 1 2 hsym h00 hdet (by norm_num)⟩

/-- C7: for the single-parameter model par[0]*x with nonzero error[0],
the prediction error at every point is exactly |x| * error[0]: the
central finite difference of this model is exactly x and the 1×1
quadratic form has no cross terms. -/
theorem single_parameter_prediction_error (f : LikelihoodFit n 1)
    (hmodel : f.model = fun _ xpts par k => par 0 * xpts k)
    (herr : f.get_errors 0 ≠ 0) {m : ℕ} (xpts : Fin m → ℝ) (k : Fin m) :
    f.get_yfit_error xpts k = |xpts k| * f.get_errors 0 := by
  have e0def : f.get_errors 0 = Real.sqrt (f.get_covariance_matrix 0 0) := rfl
  have hCpos : 0 < f.get_covariance_matrix 0 0 := by
    by_contra hle
    exact herr (e0def.trans (Real.sqrt_eq_zero'.mpr (le_of_not_lt hle)))
  have he0pos : 0 < f.get_errors 0 := by
    rw [e0def]
    exact Real.sqrt_pos.mpr hCpos
  have hstep : f.get_errors 0 * 0.01 ≠ 0 := by
    have : (0 : ℝ) < f.get_errors 0 * 0.01 := by
      apply mul_pos he0pos
      norm_num
    exact ne_of_gt this
  have hgrad : f.get_gradient xpts 0 k = xpts k := by
    simp only [LikelihoodFit.get_gradient, hmodel, if_pos rfl]
    field_simp
    ring
  simp only [LikelihoodFit.get_yfit_error, Fin.sum_univ_one, hgrad]
  have hform : xpts k * f.get_covariance_matrix 0 0 * xpts k
      = xpts k ^ 2 * f.get_covariance_matrix 0 0 := by ring
  rw [hform, Real.sqrt_mul (sq_nonneg _), Real.sqrt_sq_eq_abs, e0def]

/-- Witness for single_parameter_prediction_error on the session fC7
(error[0] = 1) evaluated at the point x = 3. -/
theorem single_parameter_prediction_error_witness :
    (fC7.model = fun _ xpts par k => par 0 * xpts k) ∧
    fC7.get_errors 0 ≠ 0 ∧
    fC7.get_yfit_error ![3] 0 = |(![3] : Fin 1 → ℝ) 0| * fC7.get_errors 0 := by
  have hmodel : fC7.model = fun _ xpts par k => par 0 * xpts k := rfl
  have herr1 : fC7.get_errors 0 = 1 := by
    simp only [LikelihoodFit.get_errors, LikelihoodFit.get_covariance_matrix,
      fC7, Matrix.smul_apply, Matrix.cons_val_zero, Matrix.cons_val',
      Matrix.of_apply, Matrix.cons_val_fin_one, smul_eq_mul]
    norm_num [Real.sqrt_one]
  have herr : fC7.get_errors 0 ≠ 0 := by
    rw [herr1]
    norm_num
  exact ⟨hmodel, herr,
    single_parameter_prediction_error fC7 hmodel herr ![3] 0⟩

end

end Fitpy
